import Mathlib

/-
Shallow embedding of the request-orchestration engine of the licai repository.

The definitions below are translated from src/index.ts (queue orchestration,
matcher, credential handling) and src/unnamed/part_001 (AdaptiveRateLimiter,
SessionPool).  Network effects are modelled by explicit oracles: each call to
the search endpoint consumes one response supplied by the environment, and
timestamps (Date.now()) are supplied as explicit arguments.
-/

namespace Licai

/-- Product information from the wealth management API (interface Product). -/
structure Product where
  prodName : String
  prodRegCode : String
deriving DecidableEq, Repr

/-- Final product result; prodRegCode is the empty string when not found
(interface ProductResult). -/
structure ProductResult where
  prodName : String
  prodRegCode : String
deriving DecidableEq, Repr

/-- Queue item status: the string union "success" | "fail" | "pending" of
interface ProductQueueItem. -/
inductive Status where
  | success
  | fail
  | pending
deriving DecidableEq, Repr

/-- Product queue item tracking fetch status (interface ProductQueueItem). -/
structure ProductQueueItem where
  name : String
  attemptCount : Nat
  triedFullName : Bool
  status : Status
deriving DecidableEq, Repr

/-- TIMING_CONFIG.MAX_RETRY_ATTEMPTS. -/
def MAX_RETRY_ATTEMPTS : Nat := 5

/-- TIMING_CONFIG.FALLBACK_SEARCH_PREFIX_LENGTH. -/
def FALLBACK_SEARCH_PREFIX_LENGTH : Nat := 8

/-- Characters removed by the first replace of normalizeForComparison:
the regex class of ASCII and full-width parentheses. -/
def isParenChar (c : Char) : Bool :=
  c = '(' || c = ')' || c = '（' || c = '）'

/-- Characters removed by the second replace of normalizeForComparison.
The character class in src/index.ts line 222 consists of the bytes
22 22 22 27 27 27, i.e. the ASCII double quote (codepoint 34) and the ASCII
single quote (codepoint 39), each listed three times; no curly or CJK quote
codepoints occur in the class. -/
def isQuoteChar (c : Char) : Bool :=
  c = Char.ofNat 34 || c = Char.ofNat 39

/-- The JavaScript regex whitespace class backslash-s: tab, line feed,
vertical tab, form feed, carriage return, space, no-break space, ogham space
mark, the U+2000 to U+200A range, line and paragraph separators, narrow
no-break space, medium mathematical space, ideographic space, and BOM. -/
def isJsSpace (c : Char) : Bool :=
  c.val = 9 || c.val = 10 || c.val = 11 || c.val = 12 || c.val = 13 ||
  c.val = 32 || c.val = 160 || c.val = 5760 ||
  (8192 ≤ c.val && c.val ≤ 8202) ||
  c.val = 8232 || c.val = 8233 || c.val = 8239 || c.val = 8287 ||
  c.val = 12288 || c.val = 65279

/-- Global replace of every character satisfying p by the empty string. -/
def stripChars (p : Char → Bool) (s : String) : String :=
  String.mk (s.toList.filter (fun c => !(p c)))

/-- Remove special characters for similarity comparison
(normalizeForComparison in src/index.ts lines 221 to 223): strips ASCII and
full-width parentheses, then ASCII straight quotes, then all whitespace. -/
def normalizeForComparison (s : String) : String :=
  stripChars isJsSpace (stripChars isQuoteChar (stripChars isParenChar s))

/-- Find exact matching product after normalization (findExactMatch in
src/index.ts lines 233 to 253).  The JS loop skips null array slots; a Lean
list has none, so the loop is the first match of the predicate. -/
def findExactMatch (searchTerm : String) (candidates : List Product) :
    Option Product :=
  if candidates.length = 0 then
    none
  else
    let normalizedSearch := normalizeForComparison searchTerm
    candidates.find? (fun c => normalizeForComparison c.prodName = normalizedSearch)

/-- Error classes thrown inside fetchProduct: transport is an ApiError or
network failure raised by searchProducts; searchEmpty is the SearchError
raised by performSearch when the full-name search returns zero results. -/
inductive ErrKind where
  | transport
  | searchEmpty
deriving DecidableEq, Repr

/-- One outcome of a searchProducts call, supplied by the environment:
err models a thrown transport error, ok models a returned candidate list
(empty when the server reports zero matches). -/
inductive SearchResp where
  | err
  | ok (results : List Product)
deriving DecidableEq, Repr

/-- Determine what search term to use based on previous attempts
(determineSearchTerm in src/index.ts lines 426 to 438).  String.slice on a
full-width BMP string takes the first 8 UTF-16 code units, i.e. the first 8
characters here. -/
def determineSearchTerm (item : ProductQueueItem) : String :=
  if !item.triedFullName then
    item.name
  else
    String.mk (item.name.toList.take FALLBACK_SEARCH_PREFIX_LENGTH)

/-- One invocation of fetchProduct (src/index.ts lines 391 to 418) together
with the performSearch and findProductMatch helpers it calls, as a pure
function of the queue item and the search response for this call.  It returns
the mutated item and either the ProductResult or the thrown error:
attemptCount is incremented first; a transport error propagates; an empty
result list either arms the prefix fallback and throws SearchError (first
strategy) or marks the item failed with an empty code (both strategies
exhausted); otherwise the exact matcher decides between success with the
matched row and failure with an empty code. -/
def fetchProduct (item : ProductQueueItem) (resp : SearchResp) :
    ProductQueueItem × Except ErrKind ProductResult :=
  let item1 := { item with attemptCount := item.attemptCount + 1 }
  match resp with
  | .err => (item1, .error .transport)
  | .ok results =>
    if results.length = 0 then
      if !item1.triedFullName then
        ({ item1 with triedFullName := true }, .error .searchEmpty)
      else
        ({ item1 with status := .fail }, .ok ⟨item1.name, ""⟩)
    else
      match findExactMatch item1.name results with
      | none => ({ item1 with status := .fail }, .ok ⟨item1.name, ""⟩)
      | some m => ({ item1 with status := .success }, .ok ⟨m.prodName, m.prodRegCode⟩)

/-- The results collection of processProductQueue: a JS Map from product name
to result, embedded as an association list where set prepends and lookup
takes the newest binding. -/
abbrev ResultsMap := List (String × ProductResult)

/-- results.set(name, result): the new binding shadows any older one. -/
def setResult (m : ResultsMap) (k : String) (v : ProductResult) : ResultsMap :=
  (k, v) :: m

/-- resultsMap.get(name). -/
def getResult (m : ResultsMap) (k : String) : Option ProductResult :=
  m.lookup k

/-- One iteration of the processProductQueue while loop restricted to the
queue list (src/index.ts lines 513 to 547): locate the first item with
status pending, run fetchProduct on it with the given response, and either
record its result, record an empty-code failure once MAX_RETRY_ATTEMPTS is
reached, or leave it pending for the next pass.  Returns none when no item
is pending (the loop breaks). -/
def processFirstPending (resp : SearchResp) :
    List ProductQueueItem →
    Option (List ProductQueueItem × Option (String × ProductResult))
  | [] => none
  | it :: rest =>
    if it.status = .pending then
      let fp := fetchProduct it resp
      match fp.2 with
      | .ok res => some (fp.1 :: rest, some (it.name, res))
      | .error _ =>
        if MAX_RETRY_ATTEMPTS ≤ fp.1.attemptCount then
          some ({ fp.1 with status := .fail } :: rest, some (it.name, ⟨it.name, ""⟩))
        else
          some (fp.1 :: rest, none)
    else
      match processFirstPending resp rest with
      | none => none
      | some (rest2, out) => some (it :: rest2, out)

/-- State of one processProductQueue run: the queue, the results map, and
the number of searchProducts calls issued so far (used to index the oracle). -/
structure QState where
  queue : List ProductQueueItem
  results : ResultsMap
  calls : Nat
deriving DecidableEq, Repr

/-- One iteration of the processProductQueue while loop on the whole state. -/
def queueStep (oracle : Nat → SearchResp) (s : QState) : Option QState :=
  match processFirstPending (oracle s.calls) s.queue with
  | none => none
  | some (q2, out) =>
    some { queue := q2,
           results := match out with
                      | some kv => setResult s.results kv.1 kv.2
                      | none => s.results,
           calls := s.calls + 1 }

/-- The processProductQueue while loop, driven with explicit fuel; the loop
breaks as soon as no pending item remains. -/
def runQueue (oracle : Nat → SearchResp) : Nat → QState → QState
  | 0, s => s
  | fuel + 1, s =>
    match queueStep oracle s with
    | none => s
    | some s2 => runQueue oracle fuel s2

/-- initializeQueue (src/index.ts lines 733 to 740): all items pending with
zero attempts. -/
def initializeQueue (productNames : List String) : List ProductQueueItem :=
  productNames.map (fun n => ⟨n, 0, false, .pending⟩)

/-- Initial orchestration state: fresh queue, empty results map, no calls. -/
def initState (productNames : List String) : QState :=
  ⟨initializeQueue productNames, [], 0⟩

/-- orderResults (src/index.ts lines 749 to 756): map the input names, in
input order, to their recorded result, defaulting to an empty code. -/
def orderResults (productNames : List String) (resultsMap : ResultsMap) :
    List ProductResult :=
  productNames.map (fun n => (getResult resultsMap n).getD ⟨n, ""⟩)

/-- Fuel sufficient for the whole run: every query terminates within
MAX_RETRY_ATTEMPTS thrown attempts, so the loop body executes at most
MAX_RETRY_ATTEMPTS times per item. -/
def queueFuel (productNames : List String) : Nat :=
  MAX_RETRY_ATTEMPTS * productNames.length

/-- The orchestration of main: processProductQueue on a fresh queue followed
by orderResults. -/
def processAndOrder (oracle : Nat → SearchResp) (productNames : List String) :
    List ProductResult :=
  orderResults productNames
    (runQueue oracle (queueFuel productNames) (initState productNames)).results

/-- API credentials (interface ApiCredentials): both fields are nullable. -/
structure ApiCredentials where
  publicKey : Option String
  cookie : Option String
deriving DecidableEq, Repr

/-- Outcome of the one fetch issued by getApiCredentials, supplied by the
environment.  netFail models a thrown network error; response carries the
set-cookie header (none when absent) and the result of JSON.parse on the
body: none when parsing threw, some d when it produced an object whose data
field is d (none when the field is absent or null). -/
inductive InitFetchOutcome where
  | netFail
  | response (parsedData : Option (Option String)) (cookie : Option String)
deriving DecidableEq, Repr

/-- getApiCredentials (src/index.ts lines 265 to 291) as a total function of
the fetch outcome: it never raises.  A network failure yields both fields
null; a parse failure yields a null publicKey while the cookie header, if
any, is kept; otherwise publicKey is the parsed data field. -/
def getApiCredentials : InitFetchOutcome → ApiCredentials
  | .netFail => ⟨none, none⟩
  | .response parsedData cookie =>
    ⟨match parsedData with
     | none => none
     | some d => d,
     cookie⟩

/-- createSignature (src/index.ts lines 300 to 318): a falsy publicKey (null
or the empty string) yields null without signing; otherwise the opaque
signing capability runs and may itself fail, modelled by signOutcome. -/
def createSignature (publicKey : Option String) (signOutcome : Option String) :
    Option String :=
  match publicKey with
  | none => none
  | some k => if k = "" then none else signOutcome

/-- The two optional headers assembled by searchProducts. -/
structure RequestHeaders where
  cookie : Option String
  signature : Option String
deriving DecidableEq, Repr

/-- The header-assembly part of searchProducts (src/index.ts lines 349 to
355): the Cookie header is spread in only when credentials.cookie is truthy
(non-null and non-empty), the signature header only when createSignature
produced one. -/
def buildSearchHeaders (credentials : ApiCredentials) (signOutcome : Option String) :
    RequestHeaders :=
  { cookie := match credentials.cookie with
              | none => none
              | some c => if c = "" then none else some c,
    signature := createSignature credentials.publicKey signOutcome }

/-- Session slot with cached credentials (interface Session in
src/unnamed/part_001). -/
structure Session where
  credentials : ApiCredentials
  lastUsedAt : Nat
deriving DecidableEq, Repr

/-- SessionPool state (class SessionPool in src/unnamed/part_001 lines 146
to 199). -/
structure SessionPool where
  sessions : List Session
  maxSessions : Nat
  currentIndex : Nat
deriving DecidableEq, Repr

/-- A freshly constructed pool: new SessionPool(maxSessions). -/
def initPool (maxSessions : Nat) : SessionPool :=
  ⟨[], maxSessions, 0⟩

/-- Placeholder for the unchecked indexing sessions[currentIndex] with the
JS non-null assertion; reachable states keep the index in bounds. -/
def defaultSession : Session :=
  ⟨⟨none, none⟩, 0⟩

/-- SessionPool.getSession (src/unnamed/part_001 lines 162 to 191): while the
pool is not full, createNewSession fetches credentials (the environment
supplies the value getApiCredentials would return and the current time),
appends the session, and returns it; once full it rotates round-robin.  The
Bool records whether a credential-fetch network call occurred on this call. -/
def getSession (p : SessionPool) (creds : ApiCredentials) (now : Nat) :
    Session × SessionPool × Bool :=
  if p.sessions.length < p.maxSessions then
    let s : Session := ⟨creds, now⟩
    (s, { p with sessions := p.sessions ++ [s] }, true)
  else
    let s := p.sessions.getD p.currentIndex defaultSession
    (s, { p with currentIndex := (p.currentIndex + 1) % p.maxSessions }, false)

/-- One getSession call during a pool run, threading the pool state and the
running count of credential-fetch network calls. -/
def poolStep (acc : SessionPool × Nat) (r : ApiCredentials × Nat) :
    SessionPool × Nat :=
  let g := getSession acc.1 r.1 r.2
  (g.2.1, acc.2 + (if g.2.2 then 1 else 0))

/-- A sequence of getSession calls, each with the environment-supplied
credentials and timestamp, together with the total number of
credential-fetch calls performed. -/
def runPool (reqs : List (ApiCredentials × Nat)) (p : SessionPool) :
    SessionPool × Nat :=
  reqs.foldl poolStep (p, 0)

/-- ADAPTATION_WINDOW of class AdaptiveRateLimiter. -/
def ADAPTATION_WINDOW : Nat := 10

/-- MIN_ADJUSTMENT_INTERVAL_MS of class AdaptiveRateLimiter. -/
def MIN_ADJUSTMENT_INTERVAL_MS : Nat := 15000

/-- MIN_REQUEST_DELAY of class AdaptiveRateLimiter. -/
def MIN_REQUEST_DELAY : Nat := 500

/-- MAX_REQUEST_DELAY of class AdaptiveRateLimiter. -/
def MAX_REQUEST_DELAY : Nat := 5000

/-- MIN_CREDENTIAL_DELAY of class AdaptiveRateLimiter. -/
def MIN_CREDENTIAL_DELAY : Nat := 1000

/-- MAX_CREDENTIAL_DELAY of class AdaptiveRateLimiter. -/
def MAX_CREDENTIAL_DELAY : Nat := 10000

/-- TIMING_CONFIG.CREDENTIAL_FETCH_COOLDOWN_MS, the initial credential delay. -/
def CREDENTIAL_FETCH_COOLDOWN_MS : Nat := 1000

/-- TIMING_CONFIG.GLOBAL_REQUEST_COOLDOWN_MS, the initial request delay. -/
def GLOBAL_REQUEST_COOLDOWN_MS : Nat := 1000

/-- Math.round(d * SPEEDUP_FACTOR) with SPEEDUP_FACTOR = 0.95, in exact
rational arithmetic on the integer delay d: round(19 * d / 20), which for
natural d equals (19 * d + 10) / 20 in truncating division. -/
def roundSpeedup (d : Nat) : Nat :=
  (19 * d + 10) / 20

/-- Math.round(d * BACKOFF_FACTOR) with BACKOFF_FACTOR = 1.5, in exact
rational arithmetic: round(3 * d / 2) = (3 * d + 1) / 2, Math.round sending
halves upward. -/
def roundBackoff (d : Nat) : Nat :=
  (3 * d + 1) / 2

/-- Mutable state of class AdaptiveRateLimiter (src/unnamed/part_001 lines
265 to 403).  Timestamps are naturals; JS computes time differences with
integer subtraction, and truncating Nat subtraction agrees with it on every
comparison the class performs. -/
structure AdaptiveRateLimiter where
  lastCredentialFetchTime : Nat
  lastApiRequestTime : Nat
  currentCredentialDelay : Nat
  currentRequestDelay : Nat
  recentSuccesses : Nat
  recentFailures : Nat
  lastAdjustmentTime : Nat
deriving DecidableEq, Repr

/-- Field initializers of class AdaptiveRateLimiter. -/
def initLimiter : AdaptiveRateLimiter :=
  { lastCredentialFetchTime := 0
    lastApiRequestTime := 0
    currentCredentialDelay := CREDENTIAL_FETCH_COOLDOWN_MS
    currentRequestDelay := GLOBAL_REQUEST_COOLDOWN_MS
    recentSuccesses := 0
    recentFailures := 0
    lastAdjustmentTime := 0 }

/-- AdaptiveRateLimiter.reportSuccess (lines 329 to 356): bump the success
counter, decay the failure counter with floor zero, and only when both the
success-count gate and the cooldown gate pass, reset the counter, stamp the
adjustment time, and shrink the request delay clamped to the floor. -/
def reportSuccess (rl : AdaptiveRateLimiter) (now : Nat) : AdaptiveRateLimiter :=
  let rl1 := { rl with recentSuccesses := rl.recentSuccesses + 1
                       recentFailures := rl.recentFailures - 1 }
  if ADAPTATION_WINDOW ≤ rl1.recentSuccesses ∧
      MIN_ADJUSTMENT_INTERVAL_MS ≤ now - rl1.lastAdjustmentTime then
    { rl1 with recentSuccesses := 0
               lastAdjustmentTime := now
               currentRequestDelay :=
                 max MIN_REQUEST_DELAY (roundSpeedup rl1.currentRequestDelay) }
  else
    rl1

/-- AdaptiveRateLimiter.reportRateLimit (lines 362 to 386): immediately, with
no gate, bump the failure counter, reset the success counter, stamp the
adjustment time, and grow both delays by the backoff factor clamped to their
ceilings. -/
def reportRateLimit (rl : AdaptiveRateLimiter) (now : Nat) : AdaptiveRateLimiter :=
  { rl with recentFailures := rl.recentFailures + 1
            recentSuccesses := 0
            lastAdjustmentTime := now
            currentRequestDelay :=
              min MAX_REQUEST_DELAY (roundBackoff rl.currentRequestDelay)
            currentCredentialDelay :=
              min MAX_CREDENTIAL_DELAY (roundBackoff rl.currentCredentialDelay) }

/-- AdaptiveRateLimiter.waitForCredentialFetch (lines 295 to 306): the wait
itself only consumes time; the state change is the stamp of
lastCredentialFetchTime.  Neither delay changes. -/
def waitForCredentialFetch (rl : AdaptiveRateLimiter) (now : Nat) :
    AdaptiveRateLimiter :=
  { rl with lastCredentialFetchTime := now }

/-- AdaptiveRateLimiter.waitForApiRequest (lines 311 to 322): stamps
lastApiRequestTime; neither delay changes. -/
def waitForApiRequest (rl : AdaptiveRateLimiter) (now : Nat) :
    AdaptiveRateLimiter :=
  { rl with lastApiRequestTime := now }

/-- One observable interaction with the limiter, carrying the Date.now()
value at which it happens. -/
inductive RateEvent where
  | success (now : Nat)
  | rateLimit (now : Nat)
  | waitCredential (now : Nat)
  | waitApi (now : Nat)
deriving DecidableEq, Repr

/-- Dispatch one event to the corresponding method. -/
def applyRateEvent (rl : AdaptiveRateLimiter) : RateEvent → AdaptiveRateLimiter
  | .success now => reportSuccess rl now
  | .rateLimit now => reportRateLimit rl now
  | .waitCredential now => waitForCredentialFetch rl now
  | .waitApi now => waitForApiRequest rl now

/-- Run an arbitrary event sequence from the freshly constructed limiter. -/
def runLimiter (events : List RateEvent) : AdaptiveRateLimiter :=
  events.foldl applyRateEvent initLimiter

/-- The oracle of the C5 scenario: the search call returns exactly one
candidate whose name uses half-width parentheses. -/
def c5Oracle : Nat → SearchResp :=
  fun _ => .ok [⟨"理财产品A(保本型)", "X001"⟩]

/-- Remaining retry budget of the queue: each pending item can throw at most
MAX_RETRY_ATTEMPTS - attemptCount more times before it is forced terminal. -/
def pendingBudget (q : List ProductQueueItem) : Nat :=
  (q.map (fun it =>
    if it.status = .pending then MAX_RETRY_ATTEMPTS - it.attemptCount else 0)).sum

/-- Reachability invariant of one processProductQueue run: the queue holds
exactly the input names in order; pending items have spare attempt budget;
terminal items have a recorded result; and a recorded row other than the
empty-code default for its key is witnessed by a successful queue item of
that name. -/
def QInv (names : List String) (s : QState) : Prop :=
  s.queue.map (fun it => it.name) = names ∧
  (∀ it ∈ s.queue, it.status = .pending → it.attemptCount < MAX_RETRY_ATTEMPTS) ∧
  (∀ it ∈ s.queue, it.status ≠ .pending →
      (getResult s.results it.name).isSome = true) ∧
  (∀ n r, getResult s.results n = some r → ¬ r = ProductResult.mk n "" →
      ∃ it ∈ s.queue, it.name = n ∧ it.status = .success)

/-- Reachability invariant of a pool run started from an empty pool:
capacity is fixed, the pool never exceeds it, the rotation index stays in
range, and the credential-fetch count equals the number of sessions. -/
def PoolInv (cap : Nat) (pc : SessionPool × Nat) : Prop :=
  pc.1.maxSessions = cap ∧ pc.1.sessions.length ≤ cap ∧
  pc.1.currentIndex < cap ∧ pc.2 = pc.1.sessions.length

/-- The delay bounds the limiter is claimed to maintain. -/
def limiterInBounds (rl : AdaptiveRateLimiter) : Prop :=
  MIN_REQUEST_DELAY ≤ rl.currentRequestDelay ∧
  rl.currentRequestDelay ≤ MAX_REQUEST_DELAY ∧
  MIN_CREDENTIAL_DELAY ≤ rl.currentCredentialDelay ∧
  rl.currentCredentialDelay ≤ MAX_CREDENTIAL_DELAY

lemma applyRateEvent_inBounds (rl : AdaptiveRateLimiter) (e : RateEvent)
    (h : limiterInBounds rl) : limiterInBounds (applyRateEvent rl e) := by
  obtain ⟨h1, h2, h3, h4⟩ := h
  cases e with
  | success now =>
    simp only [limiterInBounds, applyRateEvent, reportSuccess, roundSpeedup,
      MIN_REQUEST_DELAY, MAX_REQUEST_DELAY, MIN_CREDENTIAL_DELAY,
      MAX_CREDENTIAL_DELAY] at *
    split <;> simp only [] <;> omega
  | rateLimit now =>
    simp only [limiterInBounds, applyRateEvent, reportRateLimit, roundBackoff,
      MIN_REQUEST_DELAY, MAX_REQUEST_DELAY, MIN_CREDENTIAL_DELAY,
      MAX_CREDENTIAL_DELAY] at *
    omega
  | waitCredential now =>
    exact ⟨h1, h2, h3, h4⟩
  | waitApi now =>
    exact ⟨h1, h2, h3, h4⟩

lemma foldl_rateEvents_inBounds (events : List RateEvent)
    (rl : AdaptiveRateLimiter) (h : limiterInBounds rl) :
    limiterInBounds (events.foldl applyRateEvent rl) := by
  induction events generalizing rl with
  | nil => exact h
  | cons e es ih => exact ih _ (applyRateEvent_inBounds rl e h)

/-- C3: for every sequence of reportSuccess and reportRateLimit calls
interleaved with waits, starting from the initial values, the limiter keeps
currentRequestDelay within [MIN_REQUEST_DELAY, MAX_REQUEST_DELAY] and
currentCredentialDelay within [MIN_CREDENTIAL_DELAY, MAX_CREDENTIAL_DELAY]. -/
theorem c3_delay_bounds (events : List RateEvent) :
    MIN_REQUEST_DELAY ≤ (runLimiter events).currentRequestDelay ∧
    (runLimiter events).currentRequestDelay ≤ MAX_REQUEST_DELAY ∧
    MIN_CREDENTIAL_DELAY ≤ (runLimiter events).currentCredentialDelay ∧
    (runLimiter events).currentCredentialDelay ≤ MAX_CREDENTIAL_DELAY := by
  have hinit : limiterInBounds initLimiter := by
    simp [limiterInBounds, initLimiter, MIN_REQUEST_DELAY, MAX_REQUEST_DELAY,
      MIN_CREDENTIAL_DELAY, MAX_CREDENTIAL_DELAY,
      CREDENTIAL_FETCH_COOLDOWN_MS, GLOBAL_REQUEST_COOLDOWN_MS]
  exact foldl_rateEvents_inBounds events initLimiter hinit

lemma reportSuccess_requestDelay_le (rl : AdaptiveRateLimiter) (now : Nat)
    (h : MIN_REQUEST_DELAY ≤ rl.currentRequestDelay) :
    MIN_REQUEST_DELAY ≤ (reportSuccess rl now).currentRequestDelay ∧
    (reportSuccess rl now).currentRequestDelay ≤ rl.currentRequestDelay := by
  simp only [reportSuccess, roundSpeedup, MIN_REQUEST_DELAY] at *
  split <;> simp only [] <;> omega

lemma foldl_reportSuccess_requestDelay (ts : List Nat) (rl : AdaptiveRateLimiter)
    (h : MIN_REQUEST_DELAY ≤ rl.currentRequestDelay) :
    MIN_REQUEST_DELAY ≤ (ts.foldl reportSuccess rl).currentRequestDelay ∧
    (ts.foldl reportSuccess rl).currentRequestDelay ≤ rl.currentRequestDelay := by
  induction ts generalizing rl with
  | nil => exact ⟨h, Nat.le_refl _⟩
  | cons t ts ih =>
    have hstep := reportSuccess_requestDelay_le rl t h
    have hrest := ih (reportSuccess rl t) hstep.1
    exact ⟨hrest.1, Nat.le_trans hrest.2 hstep.2⟩

/-- C4: from any limiter state reachable by N consecutive reportSuccess
calls (at arbitrary timestamps), one reportRateLimit call strictly increases
currentRequestDelay, with no success-count or cooldown gate in the way, and
it resets the rolling success counter. -/
theorem c4_backoff_dominance (ts : List Nat) (now : Nat) :
    (ts.foldl reportSuccess initLimiter).currentRequestDelay <
      (reportRateLimit (ts.foldl reportSuccess initLimiter) now).currentRequestDelay ∧
    (reportRateLimit (ts.foldl reportSuccess initLimiter) now).recentSuccesses = 0 := by
  have hbounds := foldl_reportSuccess_requestDelay ts initLimiter
    (by simp [initLimiter, MIN_REQUEST_DELAY, GLOBAL_REQUEST_COOLDOWN_MS])
  have hinit : initLimiter.currentRequestDelay = 1000 := by
    simp [initLimiter, GLOBAL_REQUEST_COOLDOWN_MS]
  rw [hinit] at hbounds
  constructor
  · simp only [reportRateLimit, roundBackoff, MAX_REQUEST_DELAY,
      MIN_REQUEST_DELAY] at *
    omega
  · simp [reportRateLimit]

/-- C7 counterexample: curly double quotes are not in the character class of
normalizeForComparison, so the quote-variant identification claimed for
normalize("“ABC”") and normalize("ABC") fails on the code. -/
theorem c7_counterexample_curly_quotes :
    ¬ (normalizeForComparison "“ABC”" = normalizeForComparison "ABC") := by
  decide

/-- C7 amended: normalizeForComparison identifies bracket-variant spellings
(ASCII and full-width parentheses are stripped) and strips ASCII straight
quotes and all whitespace before comparison, but curly quotes are not
stripped: normalize of the string with parentheses equals normalize of the
bare string, yet the curly-quoted string normalizes to itself and stays
distinct from the bare one. -/
theorem c7_normalization_amended :
    normalizeForComparison "理财(产品)" = normalizeForComparison "理财产品" ∧
    normalizeForComparison "理财（产品）" = normalizeForComparison "理财产品" ∧
    normalizeForComparison "\"A B C\"" = normalizeForComparison "ABC" ∧
    normalizeForComparison "“ABC”" = "“ABC”" := by
  refine ⟨by decide, by decide, by decide, by decide⟩

/-- C8 counterexample: on a parse failure the cookie header is kept, so the
returned credentials value does not have both fields unset. -/
theorem c8_counterexample_parse_failure_keeps_cookie :
    getApiCredentials (.response none (some "JSESSIONID=abc")) =
      ⟨none, some "JSESSIONID=abc"⟩ ∧
    ¬ (getApiCredentials (.response none (some "JSESSIONID=abc")) =
        ⟨none, none⟩) := by
  refine ⟨rfl, by decide⟩

/-- C8 amended: getApiCredentials never raises; on a transport failure it
returns credentials with both fields unset, on a parse failure the publicKey
is unset while the set-cookie header, if any, is retained; and downstream
request construction degrades gracefully, omitting the signature header when
publicKey is unset and the cookie header when cookie is unset. -/
theorem c8_credentials_amended (cookie pk so : Option String) :
    getApiCredentials .netFail = ⟨none, none⟩ ∧
    (getApiCredentials (.response none cookie)).publicKey = none ∧
    (getApiCredentials (.response none cookie)).cookie = cookie ∧
    (buildSearchHeaders ⟨none, cookie⟩ so).signature = none ∧
    (buildSearchHeaders ⟨pk, none⟩ so).cookie = none := by
  refine ⟨rfl, rfl, rfl, rfl, ?_⟩
  simp [buildSearchHeaders]

/-- C5 counterexample: for the single input query with full-width
parentheses, the output row does not carry the original query name; the
claimed output list is not produced. -/
theorem c5_counterexample_output_name :
    ¬ (processAndOrder c5Oracle ["理财产品A（保本型）"] =
        [⟨"理财产品A（保本型）", "X001"⟩]) := by
  decide

/-- C5 amended: for the single input query with full-width parentheses and a
search response holding exactly the half-width candidate, resolution finds
the exact match after normalization and the result is recorded under the
original query name, but the output row carries the name of the matched
candidate, so the output list is exactly the single row with the half-width name
and code X001. -/
theorem c5_scenario_amended :
    processAndOrder c5Oracle ["理财产品A（保本型）"] =
      [⟨"理财产品A(保本型)", "X001"⟩] ∧
    findExactMatch "理财产品A（保本型）" [⟨"理财产品A(保本型)", "X001"⟩] =
      some ⟨"理财产品A(保本型)", "X001"⟩ ∧
    getResult
        (runQueue c5Oracle (queueFuel ["理财产品A（保本型）"])
          (initState ["理财产品A（保本型）"])).results
        "理财产品A（保本型）" =
      some ⟨"理财产品A(保本型)", "X001"⟩ := by
  refine ⟨by decide, by decide, by decide⟩

lemma fetchProduct_name (it : ProductQueueItem) (resp : SearchResp) :
    (fetchProduct it resp).1.name = it.name := by
  unfold fetchProduct
  cases resp with
  | err => rfl
  | ok results =>
    simp only []
    split
    · split <;> rfl
    · split <;> rfl

lemma fetchProduct_attemptCount (it : ProductQueueItem) (resp : SearchResp) :
    (fetchProduct it resp).1.attemptCount = it.attemptCount + 1 := by
  unfold fetchProduct
  cases resp with
  | err => rfl
  | ok results =>
    simp only []
    split
    · split <;> rfl
    · split <;> rfl

lemma fetchProduct_error_status (it : ProductQueueItem) (resp : SearchResp)
    (e : ErrKind) (h : (fetchProduct it resp).2 = .error e) :
    (fetchProduct it resp).1.status = it.status := by
  unfold fetchProduct at *
  cases resp with
  | err => rfl
  | ok results =>
    simp only [] at *
    split at h
    · split at h <;> simp_all
    · split at h <;> simp_all

lemma fetchProduct_ok_status (it : ProductQueueItem) (resp : SearchResp)
    (r : ProductResult) (h : (fetchProduct it resp).2 = .ok r) :
    (fetchProduct it resp).1.status = .success ∨
      ((fetchProduct it resp).1.status = .fail ∧ r = ⟨it.name, ""⟩) := by
  unfold fetchProduct at *
  cases resp with
  | err => simp at h
  | ok results =>
    simp only [] at *
    split at h
    · split at h
      · simp at h
      · right
        simp_all
    · split at h
      · right
        simp_all
      · left
        simp_all

lemma pendingBudget_nil : pendingBudget [] = 0 := rfl

lemma pendingBudget_cons (it : ProductQueueItem) (q : List ProductQueueItem) :
    pendingBudget (it :: q) =
      (if it.status = .pending then MAX_RETRY_ATTEMPTS - it.attemptCount else 0) +
        pendingBudget q := by
  simp [pendingBudget]

lemma pendingBudget_zero_no_pending (q : List ProductQueueItem)
    (hz : pendingBudget q = 0)
    (hac : ∀ it ∈ q, it.status = .pending → it.attemptCount < MAX_RETRY_ATTEMPTS) :
    ∀ it ∈ q, it.status ≠ .pending := by
  intro it hmem hp
  have hx : (if it.status = .pending then
      MAX_RETRY_ATTEMPTS - it.attemptCount else 0) = 0 := by
    have := List.sum_eq_zero_iff.mp hz
    exact this _ (List.mem_map.mpr ⟨it, hmem, rfl⟩)
  rw [if_pos hp] at hx
  have := hac it hmem hp
  omega

lemma processFirstPending_eq_none_iff (resp : SearchResp)
    (q : List ProductQueueItem) :
    processFirstPending resp q = none ↔ ∀ it ∈ q, it.status ≠ .pending := by
  induction q with
  | nil => simp [processFirstPending]
  | cons it rest ih =>
    by_cases hp : it.status = .pending
    · constructor
      · intro h
        exfalso
        cases h2 : (fetchProduct it resp).2 with
        | ok res => simp [processFirstPending, hp, h2] at h
        | error e =>
          simp only [processFirstPending, hp, if_true, h2] at h
          split at h <;> simp at h
      · intro h
        exact absurd hp (h it (List.mem_cons_self it rest))
    · constructor
      · intro h
        simp only [processFirstPending, hp, if_false] at h
        intro x hx
        rcases List.mem_cons.mp hx with rfl | hx2
        · exact hp
        · cases hrec : processFirstPending resp rest with
          | none => exact (ih.mp hrec) x hx2
          | some pr => simp [hrec] at h
      · intro h
        have hrest : processFirstPending resp rest = none :=
          ih.mpr (fun x hx => h x (List.mem_cons_of_mem it hx))
        simp [processFirstPending, hp, hrest]

lemma processFirstPending_spec (resp : SearchResp) (q q' : List ProductQueueItem)
    (out : Option (String × ProductResult))
    (h : processFirstPending resp q = some (q', out))
    (hinv : ∀ it ∈ q, it.status = .pending → it.attemptCount < MAX_RETRY_ATTEMPTS) :
    q'.map (fun it => it.name) = q.map (fun it => it.name) ∧
    pendingBudget q' < pendingBudget q ∧
    (∀ it ∈ q', it.status = .pending → it.attemptCount < MAX_RETRY_ATTEMPTS) ∧
    (∀ it ∈ q, it.status ≠ .pending → it ∈ q') ∧
    (∀ kv : String × ProductResult, out = some kv →
       (∃ it' ∈ q', it'.name = kv.1 ∧ it'.status ≠ .pending) ∧
       (¬ kv.2 = ⟨kv.1, ""⟩ →
          ∃ it' ∈ q', it'.name = kv.1 ∧ it'.status = .success)) ∧
    (∀ it' ∈ q', it'.status ≠ .pending →
       it' ∈ q ∨ ∃ kv : String × ProductResult, out = some kv ∧ it'.name = kv.1) := by
  induction q generalizing q' out with
  | nil => simp [processFirstPending] at h
  | cons it rest ih =>
    by_cases hp : it.status = .pending
    · cases h2 : (fetchProduct it resp).2 with
      | ok res =>
        have hst := fetchProduct_ok_status it resp res h2
        have hnp : (fetchProduct it resp).1.status ≠ .pending := by
          rcases hst with hs | hf
          · simp [hs]
          · simp [hf.1]
        simp only [processFirstPending, hp, if_true, h2, Option.some.injEq,
          Prod.mk.injEq] at h
        obtain ⟨rfl, rfl⟩ := h
        refine ⟨?_, ?_, ?_, ?_, ?_, ?_⟩
        · simp [fetchProduct_name]
        · rw [pendingBudget_cons, pendingBudget_cons, if_neg hnp, if_pos hp]
          have := hinv it (List.mem_cons_self it rest) hp
          omega
        · intro x hx hxs
          rcases List.mem_cons.mp hx with rfl | hx2
          · exact absurd hxs hnp
          · exact hinv x (List.mem_cons_of_mem it hx2) hxs
        · intro x hx hxs
          rcases List.mem_cons.mp hx with rfl | hx2
          · exact absurd hp hxs
          · exact List.mem_cons_of_mem _ hx2
        · intro kv hkv
          obtain rfl : (it.name, res) = kv := Option.some.inj hkv
          refine ⟨⟨(fetchProduct it resp).1, List.mem_cons_self _ _,
            fetchProduct_name it resp, hnp⟩, ?_⟩
          intro hne
          rcases hst with hs | ⟨hf, hres⟩
          · exact ⟨(fetchProduct it resp).1, List.mem_cons_self _ _,
              fetchProduct_name it resp, hs⟩
          · exact absurd hres hne
        · intro x hx hxs
          rcases List.mem_cons.mp hx with rfl | hx2
          · exact Or.inr ⟨(it.name, res), rfl, fetchProduct_name it resp⟩
          · exact Or.inl (List.mem_cons_of_mem it hx2)
      | error e =>
        have hstat := fetchProduct_error_status it resp e h2
        have hac := fetchProduct_attemptCount it resp
        simp only [processFirstPending, hp, if_true, h2] at h
        split at h
        next ha =>
          simp only [Option.some.injEq, Prod.mk.injEq] at h
          obtain ⟨rfl, rfl⟩ := h
          refine ⟨?_, ?_, ?_, ?_, ?_, ?_⟩
          · simp [fetchProduct_name]
          · rw [pendingBudget_cons, pendingBudget_cons, if_pos hp]
            have hcontrib : (if ({ (fetchProduct it resp).1 with
                status := Status.fail } : ProductQueueItem).status = .pending then
                MAX_RETRY_ATTEMPTS - ({ (fetchProduct it resp).1 with
                  status := Status.fail } : ProductQueueItem).attemptCount
              else 0) = 0 := by simp
            rw [hcontrib]
            have := hinv it (List.mem_cons_self it rest) hp
            omega
          · intro x hx hxs
            rcases List.mem_cons.mp hx with rfl | hx2
            · simp at hxs
            · exact hinv x (List.mem_cons_of_mem it hx2) hxs
          · intro x hx hxs
            rcases List.mem_cons.mp hx with rfl | hx2
            · exact absurd hp hxs
            · exact List.mem_cons_of_mem _ hx2
          · intro kv hkv
            obtain rfl : (it.name, (⟨it.name, ""⟩ : ProductResult)) = kv :=
              Option.some.inj hkv
            refine ⟨⟨{ (fetchProduct it resp).1 with status := Status.fail },
              List.mem_cons_self _ _, fetchProduct_name it resp, by simp⟩, ?_⟩
            intro hne
            exact absurd rfl hne
          · intro x hx hxs
            rcases List.mem_cons.mp hx with rfl | hx2
            · exact Or.inr ⟨(it.name, ⟨it.name, ""⟩), rfl, fetchProduct_name it resp⟩
            · exact Or.inl (List.mem_cons_of_mem it hx2)
        next hna =>
          simp only [Option.some.injEq, Prod.mk.injEq] at h
          obtain ⟨rfl, rfl⟩ := h
          refine ⟨?_, ?_, ?_, ?_, ?_, ?_⟩
          · simp [fetchProduct_name]
          · rw [pendingBudget_cons, pendingBudget_cons, if_pos hp,
              if_pos (hstat.trans hp), hac]
            have := hinv it (List.mem_cons_self it rest) hp
            omega
          · intro x hx hxs
            rcases List.mem_cons.mp hx with rfl | hx2
            · omega
            · exact hinv x (List.mem_cons_of_mem it hx2) hxs
          · intro x hx hxs
            rcases List.mem_cons.mp hx with rfl | hx2
            · exact absurd hp hxs
            · exact List.mem_cons_of_mem _ hx2
          · intro kv hkv
            simp at hkv
          · intro x hx hxs
            rcases List.mem_cons.mp hx with rfl | hx2
            · exact absurd (hstat.trans hp) hxs
            · exact Or.inl (List.mem_cons_of_mem it hx2)
    · simp only [processFirstPending, hp, if_false] at h
      cases hrec : processFirstPending resp rest with
      | none => rw [hrec] at h; simp at h
      | some pr =>
        obtain ⟨rest2, out2⟩ := pr
        rw [hrec] at h
        simp only [Option.some.injEq, Prod.mk.injEq] at h
        obtain ⟨rfl, rfl⟩ := h
        obtain ⟨i1, i2, i3, i4, i5, i6⟩ := ih rest2 out2 hrec
          (fun x hx => hinv x (List.mem_cons_of_mem it hx))
        refine ⟨?_, ?_, ?_, ?_, ?_, ?_⟩
        · simp [i1]
        · rw [pendingBudget_cons, pendingBudget_cons]
          omega
        · intro x hx hxs
          rcases List.mem_cons.mp hx with rfl | hx2
          · exact absurd hxs hp
          · exact i3 x hx2 hxs
        · intro x hx hxs
          rcases List.mem_cons.mp hx with rfl | hx2
          · exact List.mem_cons_self _ _
          · exact List.mem_cons_of_mem _ (i4 x hx2 hxs)
        · intro kv hkv
          obtain ⟨⟨w, hw1, hw2, hw3⟩, hsucc⟩ := i5 kv hkv
          refine ⟨⟨w, List.mem_cons_of_mem it hw1, hw2, hw3⟩, ?_⟩
          intro hne
          obtain ⟨w2, hw21, hw22, hw23⟩ := hsucc hne
          exact ⟨w2, List.mem_cons_of_mem it hw21, hw22, hw23⟩
        · intro x hx hxs
          rcases List.mem_cons.mp hx with rfl | hx2
          · exact Or.inl (List.mem_cons_self _ _)
          · rcases i6 x hx2 hxs with hl | hr
            · exact Or.inl (List.mem_cons_of_mem it hl)
            · exact Or.inr hr

lemma getResult_setResult (m : ResultsMap) (k n : String) (v : ProductResult) :
    getResult (setResult m k v) n = if n = k then some v else getResult m n := by
  simp only [getResult, setResult, List.lookup]
  by_cases h : n = k
  · simp [h]
  · have hb : (n == k) = false := beq_eq_false_iff_ne.mpr h
    rw [hb, if_neg h]

lemma queueStep_eq_none_iff (oracle : Nat → SearchResp) (s : QState) :
    queueStep oracle s = none ↔ ∀ it ∈ s.queue, it.status ≠ .pending := by
  unfold queueStep
  cases hq : processFirstPending (oracle s.calls) s.queue with
  | none => simpa using (processFirstPending_eq_none_iff _ _).mp hq
  | some pr =>
    simp only []
    constructor
    · intro hcontra
      simp at hcontra
    · intro hall
      exact absurd hq (by rw [(processFirstPending_eq_none_iff _ _).mpr hall]; simp)

lemma queueStep_some_inv (oracle : Nat → SearchResp) (names : List String)
    (s s' : QState) (h : queueStep oracle s = some s') (hinv : QInv names s) :
    QInv names s' ∧ pendingBudget s'.queue < pendingBudget s.queue := by
  obtain ⟨hnames, hac, hrec, hsucc⟩ := hinv
  unfold queueStep at h
  cases hq : processFirstPending (oracle s.calls) s.queue with
  | none => rw [hq] at h; simp at h
  | some pr =>
    obtain ⟨q2, out⟩ := pr
    rw [hq] at h
    simp only [Option.some.injEq] at h
    subst h
    obtain ⟨s1, s2, s3, s4, s5, s6⟩ :=
      processFirstPending_spec (oracle s.calls) s.queue q2 out hq hac
    refine ⟨⟨?_, ?_, ?_, ?_⟩, ?_⟩
    · exact s1.trans hnames
    · exact s3
    · intro it hmem hst
      cases out with
      | none =>
        rcases s6 it hmem hst with hold | ⟨kv, hkv, _⟩
        · exact hrec it hold hst
        · simp at hkv
      | some kv =>
        simp only []
        rcases s6 it hmem hst with hold | ⟨kv2, hkv2, hname2⟩
        · rw [getResult_setResult]
          by_cases hnk : it.name = kv.1
          · simp [hnk]
          · rw [if_neg hnk]
            exact hrec it hold hst
        · obtain rfl : kv2 = kv := Option.some.inj hkv2.symm ▸ rfl
          rw [getResult_setResult, hname2]
          simp [Option.some.inj hkv2]
    · intro n r hget hne
      cases out with
      | none =>
        obtain ⟨w, hw1, hw2, hw3⟩ := hsucc n r hget hne
        exact ⟨w, s4 w hw1 (by simp [hw3]), hw2, hw3⟩
      | some kv =>
        simp only [] at hget
        rw [getResult_setResult] at hget
        by_cases hnk : n = kv.1
        · rw [if_pos hnk] at hget
          obtain rfl := Option.some.inj hget
          obtain ⟨w, hw1, hw2, hw3⟩ := (s5 kv rfl).2 (by rw [← hnk]; exact hne)
          exact ⟨w, hw1, hnk ▸ hw2, hw3⟩
        · rw [if_neg hnk] at hget
          obtain ⟨w, hw1, hw2, hw3⟩ := hsucc n r hget hne
          exact ⟨w, s4 w hw1 (by simp [hw3]), hw2, hw3⟩
    · exact s2

lemma runQueue_inv (oracle : Nat → SearchResp) (names : List String)
    (fuel : Nat) (s : QState) (hinv : QInv names s) :
    QInv names (runQueue oracle fuel s) := by
  induction fuel generalizing s with
  | zero => exact hinv
  | succ fuel ih =>
    unfold runQueue
    cases hstep : queueStep oracle s with
    | none => exact hinv
    | some s2 => exact ih s2 (queueStep_some_inv oracle names s s2 hstep hinv).1

lemma runQueue_no_pending (oracle : Nat → SearchResp) (names : List String)
    (fuel : Nat) (s : QState) (hinv : QInv names s)
    (hfuel : pendingBudget s.queue ≤ fuel) :
    ∀ it ∈ (runQueue oracle fuel s).queue, it.status ≠ .pending := by
  induction fuel generalizing s with
  | zero =>
    have hz : pendingBudget s.queue = 0 := Nat.le_zero.mp hfuel
    exact pendingBudget_zero_no_pending s.queue hz hinv.2.1
  | succ fuel ih =>
    unfold runQueue
    cases hstep : queueStep oracle s with
    | none => exact (queueStep_eq_none_iff oracle s).mp hstep
    | some s2 =>
      obtain ⟨hinv2, hlt⟩ := queueStep_some_inv oracle names s s2 hstep hinv
      exact ih s2 hinv2 (by omega)

lemma qinv_init (names : List String) : QInv names (initState names) := by
  refine ⟨?_, ?_, ?_, ?_⟩
  · show List.map (fun it => it.name) (initializeQueue names) = names
    induction names with
    | nil => rfl
    | cons n rest ih => simpa [initializeQueue] using ih
  · intro it hmem _
    simp only [initState, initializeQueue, List.mem_map] at hmem
    obtain ⟨n, _, rfl⟩ := hmem
    simp [MAX_RETRY_ATTEMPTS]
  · intro it hmem hst
    simp only [initState, initializeQueue, List.mem_map] at hmem
    obtain ⟨n, _, rfl⟩ := hmem
    simp at hst
  · intro n r hget _
    simp [initState, getResult] at hget

lemma pendingBudget_init (names : List String) :
    pendingBudget (initializeQueue names) = queueFuel names := by
  induction names with
  | nil => simp [initializeQueue, pendingBudget, queueFuel]
  | cons n rest ih =>
    simp only [initializeQueue, List.map_cons] at *
    rw [pendingBudget_cons]
    simp only [if_pos rfl]
    rw [ih]
    simp [queueFuel, MAX_RETRY_ATTEMPTS]
    ring

/-- C1: for every non-empty input query list, processProductQueue followed
by orderResults produces one output row per input query, at the input
position of that query (so output length and order equal the input), every
query has a recorded result, and a query whose resolution failed
unrecoverably still gets a row, with an empty code, never omitted. -/
theorem c1_output_shape (oracle : Nat → SearchResp) (names : List String)
    (i : Nat) (_hne : names ≠ []) (hi : i < names.length) :
    (processAndOrder oracle names).length = names.length ∧
    (∀ n ∈ names,
       (getResult (runQueue oracle (queueFuel names)
         (initState names)).results n).isSome = true) ∧
    (processAndOrder oracle names)[i]? =
      some ((getResult (runQueue oracle (queueFuel names)
        (initState names)).results names[i]).getD ⟨names[i], ""⟩) ∧
    ((∀ it ∈ (runQueue oracle (queueFuel names) (initState names)).queue,
        it.name = names[i] → it.status = .fail) →
      (processAndOrder oracle names)[i]? = some ⟨names[i], ""⟩) := by
  obtain ⟨hnames, hac, hrec, hsucc⟩ :=
    runQueue_inv oracle names (queueFuel names) (initState names) (qinv_init names)
  have hnp := runQueue_no_pending oracle names (queueFuel names) (initState names)
    (qinv_init names) (le_of_eq (pendingBudget_init names))
  have hmemrec : ∀ n ∈ names,
      (getResult (runQueue oracle (queueFuel names)
        (initState names)).results n).isSome = true := by
    intro n hn
    rw [← hnames] at hn
    obtain ⟨it, hit, rfl⟩ := List.mem_map.mp hn
    exact hrec it hit (hnp it hit)
  have hidx : (processAndOrder oracle names)[i]? =
      some ((getResult (runQueue oracle (queueFuel names)
        (initState names)).results names[i]).getD ⟨names[i], ""⟩) := by
    simp [processAndOrder, orderResults, List.getElem?_map,
      List.getElem?_eq_getElem hi]
  refine ⟨by simp [processAndOrder, orderResults], hmemrec, hidx, ?_⟩
  intro hfail
  have hmem : names[i] ∈ names := List.getElem_mem hi
  obtain ⟨r, hr⟩ := Option.isSome_iff_exists.mp (hmemrec names[i] hmem)
  have hrdef : r = ProductResult.mk names[i] "" := by
    by_contra hne2
    obtain ⟨w, hw1, hw2, hw3⟩ := hsucc names[i] r hr hne2
    have := hfail w hw1 hw2
    rw [hw3] at this
    exact Status.noConfusion this
  rw [hidx, hr, hrdef]
  rfl

/-- C2: with fuel MAX_RETRY_ATTEMPTS per query the processing loop has fully
terminated, every item ending in a terminal state (at most MAX_RETRY_ATTEMPTS
thrown attempts per query), and at every intermediate point of any run an
item that is still pending has an attemptCount that does not exceed the
configured maximum. -/
theorem c2_retry_termination (oracle : Nat → SearchResp) (names : List String)
    (fuel : Nat) (it it2 : ProductQueueItem)
    (h1 : it ∈ (runQueue oracle (queueFuel names) (initState names)).queue)
    (h2 : it2 ∈ (runQueue oracle fuel (initState names)).queue)
    (h3 : it2.status = .pending) :
    it.status ≠ .pending ∧ it2.attemptCount ≤ MAX_RETRY_ATTEMPTS := by
  constructor
  · exact runQueue_no_pending oracle names (queueFuel names) (initState names)
      (qinv_init names) (le_of_eq (pendingBudget_init names)) it h1
  · have := (runQueue_inv oracle names fuel (initState names)
      (qinv_init names)).2.1 it2 h2 h3
    omega

/-- C6 counterexample: an item whose full-name search returns zero results
remains pending and is retried although no transport error was thrown — the
thrown error is the internal SearchError, and the search response was a
successful reply with an empty list, not a transport failure. -/
theorem c6_counterexample_nontransport_retry :
    processFirstPending (.ok []) [⟨"A", 0, false, .pending⟩] =
      some ([⟨"A", 1, true, .pending⟩], none) ∧
    fetchProduct ⟨"A", 0, false, .pending⟩ (.ok []) =
      (⟨"A", 1, true, .pending⟩, .error .searchEmpty) ∧
    ¬ ((SearchResp.ok []) = SearchResp.err) := by
  refine ⟨by decide, by rfl, by decide⟩

/-- C6 amended: zero results with the prefix strategy already armed, and
results present without an exact match, each mark the item failed on first
occurrence with an empty-code result; an already terminal item is never
selected again; and an item stays pending only when an error was thrown,
namely a transport error or the internal empty-full-name SearchError that
arms the prefix fallback (and, like a transport error, consumes one
attempt). -/
theorem c6_failure_semantics_amended (it it2 : ProductQueueItem)
    (resp : SearchResp) (l : List Product) (q : List ProductQueueItem)
    (_hp : it.status = .pending) :
    (it.triedFullName = true →
       (fetchProduct it (.ok [])).1.status = .fail ∧
       (fetchProduct it (.ok [])).2 = .ok ⟨it.name, ""⟩) ∧
    (¬ l = [] → findExactMatch it.name l = none →
       (fetchProduct it (.ok l)).1.status = .fail ∧
       (fetchProduct it (.ok l)).2 = .ok ⟨it.name, ""⟩) ∧
    ((fetchProduct it resp).1.status = .pending →
       resp = .err ∨ (resp = .ok [] ∧ it.triedFullName = false)) ∧
    (it2.status ≠ .pending →
       processFirstPending resp (it2 :: q) =
         (processFirstPending resp q).map (fun pr => (it2 :: pr.1, pr.2))) := by
  refine ⟨?_, ?_, ?_, ?_⟩
  · intro ht
    simp [fetchProduct, ht]
  · intro hl hm
    have hlen : ¬ l.length = 0 := by
      simpa [List.length_eq_zero] using hl
    simp [fetchProduct, hlen, hm]
  · intro hpend
    cases resp with
    | err => exact Or.inl rfl
    | ok results =>
      by_cases hlen : results.length = 0
      · by_cases htr : it.triedFullName
        · exfalso
          simp [fetchProduct, hlen, htr] at hpend
        · exact Or.inr ⟨by rw [List.length_eq_zero.mp hlen], by simpa using htr⟩
      · exfalso
        cases hm : findExactMatch it.name results with
        | none => simp [fetchProduct, hlen, hm] at hpend
        | some p => simp [fetchProduct, hlen, hm] at hpend
  · intro h2
    cases hrec : processFirstPending resp q with
    | none => simp [processFirstPending, h2, hrec]
    | some pr => simp [processFirstPending, h2, hrec]

/-- Witness for c6_failure_semantics_amended at a concrete item whose prefix
strategy is armed and whose search reply is empty. -/
theorem c6_failure_semantics_amended_witness :
    (fetchProduct ⟨"B", 0, true, .pending⟩ (.ok [])).1.status = .fail ∧
    (fetchProduct ⟨"B", 0, true, .pending⟩ (.ok [])).2 = .ok ⟨"B", ""⟩ :=
  (c6_failure_semantics_amended ⟨"B", 0, true, .pending⟩
    ⟨"C", 1, false, .success⟩ .err [⟨"Z", "C9"⟩] [] (by decide)).1 rfl

/-- Witness for c1_output_shape at a concrete one-element run. -/
theorem c1_output_shape_witness :
    (["a"] : List String) ≠ [] ∧ 0 < (["a"] : List String).length ∧
    (processAndOrder (fun _ => .ok [⟨"a", "R1"⟩]) ["a"]).length =
      (["a"] : List String).length :=
  ⟨by decide, by decide,
    (c1_output_shape (fun _ => .ok [⟨"a", "R1"⟩]) ["a"] 0
      (by decide) (by decide)).1⟩

/-- Witness for c2_retry_termination on a run whose every call throws. -/
theorem c2_retry_termination_witness :
    (⟨"a", 5, false, .fail⟩ : ProductQueueItem).status ≠ .pending ∧
    (⟨"a", 1, false, .pending⟩ : ProductQueueItem).attemptCount ≤
      MAX_RETRY_ATTEMPTS :=
  c2_retry_termination (fun _ => .err) ["a"] 1 ⟨"a", 5, false, .fail⟩
    ⟨"a", 1, false, .pending⟩ (by decide) (by decide) (by decide)

lemma poolStep_inv (cap : Nat) (pc : SessionPool × Nat)
    (r : ApiCredentials × Nat) (hcap : 0 < cap) (h : PoolInv cap pc) :
    PoolInv cap (poolStep pc r) := by
  obtain ⟨hmax, hlen, hidx, hcount⟩ := h
  unfold poolStep getSession
  by_cases hroom : pc.1.sessions.length < pc.1.maxSessions
  · simp only [hroom, if_true]
    refine ⟨hmax, ?_, hidx, ?_⟩
    · simp only [List.length_append, List.length_cons, List.length_nil]
      omega
    · simp only [List.length_append, List.length_cons, List.length_nil]
      omega
  · simp only [hroom, if_false]
    refine ⟨hmax, hlen, ?_, by simpa using hcount⟩
    simp only []
    rw [hmax]
    exact Nat.mod_lt _ hcap

lemma foldl_poolStep_inv (cap : Nat) (reqs : List (ApiCredentials × Nat))
    (pc : SessionPool × Nat) (hcap : 0 < cap) (h : PoolInv cap pc) :
    PoolInv cap (reqs.foldl poolStep pc) := by
  induction reqs generalizing pc with
  | nil => exact h
  | cons r rest ih => exact ih _ (poolStep_inv cap pc r hcap h)

lemma runPool_inv (cap : Nat) (reqs : List (ApiCredentials × Nat))
    (hcap : 0 < cap) : PoolInv cap (runPool reqs (initPool cap)) := by
  refine foldl_poolStep_inv cap reqs _ hcap ⟨rfl, ?_, ?_, rfl⟩
  · simp [initPool]
  · simpa [initPool] using hcap

/-- C9: for every sequence of getSession calls started from a fresh pool of
capacity at least one, the number of sessions never exceeds the capacity,
every new session costs exactly one credential-fetch call (so the fetch
count equals the pool size), and once the pool is full a further getSession
performs no credential fetch and returns a session already in the pool. -/
theorem c9_session_pool_bound (reqs : List (ApiCredentials × Nat)) (cap : Nat)
    (creds : ApiCredentials) (now : Nat) (hcap : 1 ≤ cap) :
    (runPool reqs (initPool cap)).1.sessions.length ≤ cap ∧
    (runPool reqs (initPool cap)).2 =
      (runPool reqs (initPool cap)).1.sessions.length ∧
    ((runPool reqs (initPool cap)).1.sessions.length = cap →
       (getSession (runPool reqs (initPool cap)).1 creds now).2.2 = false ∧
       (getSession (runPool reqs (initPool cap)).1 creds now).1 ∈
         (runPool reqs (initPool cap)).1.sessions) := by
  obtain ⟨hmax, hlen, hidx, hcount⟩ := runPool_inv cap reqs hcap
  refine ⟨hlen, hcount, ?_⟩
  intro hfull
  have hnot : ¬ ((runPool reqs (initPool cap)).1.sessions.length <
      (runPool reqs (initPool cap)).1.maxSessions) := by
    rw [hmax, hfull]
    omega
  have hci : (runPool reqs (initPool cap)).1.currentIndex <
      (runPool reqs (initPool cap)).1.sessions.length := by
    rw [hfull]
    exact hidx
  constructor
  · simp [getSession, hnot]
  · simp only [getSession, hnot, if_false]
    rw [List.getD_eq_getElem?_getD, List.getElem?_eq_getElem hci]
    exact List.getElem_mem hci

/-- Witness for c9_session_pool_bound at capacity one with two calls. -/
theorem c9_session_pool_bound_witness :
    1 ≤ 1 ∧
    (runPool [(⟨none, none⟩, 0), (⟨none, none⟩, 3)]
      (initPool 1)).1.sessions.length ≤ 1 :=
  ⟨by decide,
    (c9_session_pool_bound [(⟨none, none⟩, 0), (⟨none, none⟩, 3)] 1
      ⟨none, none⟩ 7 (by decide)).1⟩

/-- C10: rows of the ordered output at positions holding the same query
string are identical (duplicates share the one map entry for that name, both
in orderResults over any map and in the full orchestration), and storing a
result overwrites any earlier entry under the same key. -/
theorem c10_duplicate_rows (oracle : Nat → SearchResp) (names : List String)
    (m : ResultsMap) (i j : Nat) (k : String) (v : ProductResult)
    (hi : i < names.length) (hj : j < names.length)
    (hname : names[i] = names[j]) :
    (orderResults names m)[i]? = (orderResults names m)[j]? ∧
    (processAndOrder oracle names)[i]? = (processAndOrder oracle names)[j]? ∧
    getResult (setResult m k v) k = some v := by
  refine ⟨?_, ?_, ?_⟩
  · simp [orderResults, List.getElem?_map, List.getElem?_eq_getElem hi,
      List.getElem?_eq_getElem hj, hname]
  · simp [processAndOrder, orderResults, List.getElem?_map,
      List.getElem?_eq_getElem hi, List.getElem?_eq_getElem hj, hname]
  · simp [getResult_setResult]

/-- Witness for c10_duplicate_rows on a list with a duplicated query. -/
theorem c10_duplicate_rows_witness :
    (0 : Nat) < 3 ∧ (2 : Nat) < 3 ∧
    (orderResults ["甲", "乙", "甲"] [])[0]? =
      (orderResults ["甲", "乙", "甲"] [])[2]? :=
  ⟨by decide, by decide,
    (c10_duplicate_rows (fun _ => .err) ["甲", "乙", "甲"] [] 0 2 "k"
      ⟨"p", "c"⟩ (by decide) (by decide) (by decide)).1⟩

end Licai
